import Mathlib

/-!
Shallow embedding of the PDF2CSV extraction pipeline
(src/lib/extractor.ts, src/lib/pdf.ts, src/lib/retry.ts, src/lib/settings.ts).
Numbers that are JavaScript `number`s carrying measurements (y-coordinates,
gaps, confidences) are modelled as rationals; counts and sizes as naturals.
JavaScript strings are modelled as Lean strings (the sources only rely on
lengths and character tests that agree on the inputs of interest).
-/

namespace PDF2CSV

/-- Characters matched by the JavaScript regex class `\s`. -/
def jsWhitespace (c : Char) : Bool :=
  c == ' ' || c == '\t' || c == '\n' || c == '\r' ||
  c == Char.ofNat 0x0b || c == Char.ofNat 0x0c ||
  c == Char.ofNat 0xa0 || c == Char.ofNat 0x1680 ||
  (0x2000 ≤ c.toNat && c.toNat ≤ 0x200a) ||
  c == Char.ofNat 0x2028 || c == Char.ofNat 0x2029 ||
  c == Char.ofNat 0x202f || c == Char.ofNat 0x205f ||
  c == Char.ofNat 0x3000 || c == Char.ofNat 0xfeff

/-- JavaScript `String.prototype.trim()`: strip `\s` characters from both ends. -/
def jsTrim (s : String) : String :=
  String.mk (((s.data.dropWhile jsWhitespace).reverse.dropWhile jsWhitespace).reverse)

/-- Maximal runs of non-whitespace characters, `acc` holding the reversed
run in progress: the pieces of `split(/\s+/).filter(Boolean)`. -/
def wordsAux : List Char → List Char → List String
  | [], acc => if acc = [] then [] else [String.mk acc.reverse]
  | c :: cs, acc =>
    if jsWhitespace c then
      if acc = [] then wordsAux cs []
      else String.mk acc.reverse :: wordsAux cs []
    else wordsAux cs (c :: acc)

/-- `s.split(/\s+/).filter(Boolean)`: the whitespace-separated words. -/
def jsWords (s : String) : List String :=
  wordsAux s.data []

/-- `text.replace(/\s+/g, " ").trim()`: collapse whitespace runs to single
spaces and trim; realized as split-on-whitespace, drop empty pieces, rejoin. -/
def collapseWhitespace (text : String) : String :=
  String.intercalate " " (jsWords text)

/-- `normalizeParagraph` from src/lib/extractor.ts. -/
def normalizeParagraph (text : String) : String :=
  collapseWhitespace text

/-- ASCII letter test, the regex class `[A-Za-z]`. -/
def isAsciiAlpha (c : Char) : Bool :=
  ('A' ≤ c && c ≤ 'Z') || ('a' ≤ c && c ≤ 'z')

/-- The regex `/[.!?]["')\]]?$/`: the string ends with a sentence terminator,
optionally followed by one closing quote, parenthesis or bracket. -/
def hasSentenceTerminator (s : String) : Bool :=
  match s.data.reverse with
  | [] => false
  | c :: rest =>
    if c == '.' || c == '!' || c == '?' then true
    else if c == '"' || c == Char.ofNat 39 || c == ')' || c == ']' then
      match rest with
      | c2 :: _ => c2 == '.' || c2 == '!' || c2 == '?'
      | [] => false
    else false

structure ExtractionQualitySettings where
  minWordsPerParagraph : ℕ
  minAlphaCharsPerParagraph : ℕ
  shortParagraphWordThreshold : ℕ
  requireSentenceTerminatorForShortParagraphs : Bool
deriving Repr, DecidableEq

/-- `DEFAULT_QUALITY_SETTINGS` from src/lib/settings.ts. -/
def DEFAULT_QUALITY_SETTINGS : ExtractionQualitySettings :=
  { minWordsPerParagraph := 6
    minAlphaCharsPerParagraph := 18
    shortParagraphWordThreshold := 12
    requireSentenceTerminatorForShortParagraphs := true }

/-- `sanitizeQualitySettings` from src/lib/settings.ts, modelled on present,
finite numeric input (the `toFiniteNumber` fallback for absent or non-finite
fields is not exercised here); `Math.floor` is the identity on naturals. -/
def sanitizeQualitySettings (input : ExtractionQualitySettings) : ExtractionQualitySettings :=
  { minWordsPerParagraph := min 100 (max 1 input.minWordsPerParagraph)
    minAlphaCharsPerParagraph := min 600 (max 1 input.minAlphaCharsPerParagraph)
    shortParagraphWordThreshold := min 200 (max 1 input.shortParagraphWordThreshold)
    requireSentenceTerminatorForShortParagraphs :=
      input.requireSentenceTerminatorForShortParagraphs }

/-- `isLikelyCodingParagraph` from src/lib/extractor.ts: the quality gate. -/
def isLikelyCodingParagraph (text : String) (quality : ExtractionQualitySettings) : Bool :=
  let normalized := normalizeParagraph text
  if normalized = "" then false
  else
    let words := jsWords normalized
    if words.length < quality.minWordsPerParagraph then false
    else
      let alphaChars := (normalized.data.filter isAsciiAlpha).length
      if alphaChars < quality.minAlphaCharsPerParagraph then false
      else if quality.requireSentenceTerminatorForShortParagraphs = false then true
      else
        let hasSentenceEnding := hasSentenceTerminator normalized
        if hasSentenceEnding = false ∧ words.length < quality.shortParagraphWordThreshold then
          false
        else true

structure ParagraphCandidate where
  id : String
  pageNumber : ℕ
  text : String
deriving Repr, DecidableEq

/-- Estimated serialized size of one paragraph inside a chunk request:
`paragraph.text.length + 120` in `chunkParagraphs`. -/
def serializedLength (p : ParagraphCandidate) : ℕ :=
  p.text.length + 120

/-- The loop of `chunkParagraphs` (src/lib/extractor.ts): `cur` is the chunk
being accumulated and `len` its accumulated serialized length. -/
def chunkLoop (maxChars : ℕ) : List ParagraphCandidate → List ParagraphCandidate → ℕ →
    List (List ParagraphCandidate)
  | [], cur, _ => if cur = [] then [] else [cur]
  | p :: ps, cur, len =>
    let s := serializedLength p
    if cur ≠ [] ∧ len + s > maxChars then
      cur :: chunkLoop maxChars ps [p] s
    else
      chunkLoop maxChars ps (cur ++ [p]) (len + s)

/-- `chunkParagraphs` from src/lib/extractor.ts (default budget 7000). -/
def chunkParagraphs (paragraphs : List ParagraphCandidate) (maxChars : ℕ := 7000) :
    List (List ParagraphCandidate) :=
  chunkLoop maxChars paragraphs [] 0

/-- Total estimated serialized size of a chunk. -/
def chunkSize (chunk : List ParagraphCandidate) : ℕ :=
  (chunk.map serializedLength).sum

/-- A reconstructed text line of one page (src/lib/pdf.ts `Line`). -/
structure Line where
  y : ℚ
  text : String
deriving Repr, DecidableEq

/-- `normalizeSpaces` from src/lib/pdf.ts (same body as `normalizeParagraph`). -/
def normalizeSpaces (input : String) : String :=
  collapseWhitespace input

/-- Does the string start with an ASCII lowercase letter (regex `/^[a-z]/`)? -/
def startsLowercase (s : String) : Bool :=
  match s.data with
  | c :: _ => 'a' ≤ c && c ≤ 'z'
  | [] => false

/-- `appendLine` from src/lib/pdf.ts: join a line onto a paragraph, merging a
trailing hyphen with a lowercase continuation (de-hyphenation). -/
def appendLine (paragraph line : String) : String :=
  if paragraph = "" then line
  else if paragraph.data.getLast? = some '-' ∧ startsLowercase line then
    String.mk paragraph.data.dropLast ++ line
  else paragraph ++ " " ++ line

/-- Insert a value into an ascending-sorted list of rationals. -/
def insertAscending (x : ℚ) : List ℚ → List ℚ
  | [] => [x]
  | y :: ys => if x ≤ y then x :: y :: ys else y :: insertAscending x ys

/-- Ascending numeric sort, the model of `[...values].sort((a, b) => a - b)`
(for rational values the sorted sequence is sort-algorithm independent). -/
def sortAscending (values : List ℚ) : List ℚ :=
  values.foldr insertAscending []

/-- `median` from src/lib/pdf.ts: 12 for an empty list, otherwise the middle
element (mean of the two middle elements for even length) after sorting. -/
def median (values : List ℚ) : ℚ :=
  if values = [] then 12
  else
    let sorted := sortAscending values
    let mid := values.length / 2
    if values.length % 2 = 0 then (sorted.getD (mid - 1) 0 + sorted.getD mid 0) / 2
    else sorted.getD mid 0

/-- The vertical gaps `lines[i-1].y - lines[i].y` between consecutive lines. -/
def consecutiveGaps : List Line → List ℚ
  | a :: b :: rest => (a.y - b.y) :: consecutiveGaps (b :: rest)
  | _ => []

/-- The gaps `linesToParagraphs` collects: only those strictly between 0.5
and 40 units enter the median. -/
def observedGaps (lines : List Line) : List ℚ :=
  (consecutiveGaps lines).filter (fun gap => 0.5 < gap ∧ gap < 40)

/-- The walk of `linesToParagraphs`: `prev` is the previous line, `current`
the paragraph being accumulated; a gap above `threshold` closes it. -/
def walkLines (threshold : ℚ) : List Line → Line → String → List String
  | [], _, current =>
    let normalized := normalizeSpaces current
    if normalized = "" then [] else [normalized]
  | line :: rest, prev, current =>
    if current = "" then walkLines threshold rest line line.text
    else
      let gap := prev.y - line.y
      if gap > threshold then
        let normalized := normalizeSpaces current
        if normalized = "" then walkLines threshold rest line line.text
        else normalized :: walkLines threshold rest line line.text
      else walkLines threshold rest line (appendLine current line.text)

/-- `linesToParagraphs` from src/lib/pdf.ts: adaptive paragraph splitting. -/
def linesToParagraphs (lines : List Line) : List String :=
  match lines with
  | [] => []
  | first :: rest =>
    let baselineGap := median (observedGaps lines)
    let gapThreshold := baselineGap * 1.65
    walkLines gapThreshold rest first first.text

/-- `normalizeForDuplicateCheck` from src/lib/pdf.ts. -/
def normalizeForDuplicateCheck (text : String) : String :=
  collapseWhitespace text

/-- Does the string end in `.`, `!` or `?` (regex `/[.!?]$/`)? -/
def endsWithTerminalPunct (s : String) : Bool :=
  match s.data.getLast? with
  | some c => c == '.' || c == '!' || c == '?'
  | none => false

/-- Record one candidate's page for its key, modelling the
`Map<string, Set<number>>` of `removeGlobalRepeats` (insertion order kept,
page sets deduplicated). -/
def insertKeyPage : List (String × List ℕ) → String → ℕ → List (String × List ℕ)
  | [], key, page => [(key, [page])]
  | (k, pages) :: rest, key, page =>
    if k = key then (k, if page ∈ pages then pages else pages ++ [page]) :: rest
    else (k, pages) :: insertKeyPage rest key page

/-- First pass of `removeGlobalRepeats`: the key→pages map (keys shorter
than 8 characters are skipped). -/
def keyToPagesOf (candidates : List ParagraphCandidate) : List (String × List ℕ) :=
  candidates.foldl
    (fun m candidate =>
      let key := normalizeForDuplicateCheck candidate.text
      if key.length < 8 then m
      else insertKeyPage m key candidate.pageNumber)
    []

/-- Lookup in the association-list model of the key→pages map. -/
def lookupKeyPages : List (String × List ℕ) → String → Option (List ℕ)
  | [], _ => none
  | (k, pages) :: rest, key => if k = key then some pages else lookupKeyPages rest key

/-- The `repeatedAcrossPages` test of `removeGlobalRepeats`: the candidate's
key recurs on at least 3 distinct pages, is under 220 characters, and does
not end in terminal punctuation. -/
def repeatedAcrossPages (keyToPages : List (String × List ℕ))
    (candidate : ParagraphCandidate) : Bool :=
  let key := normalizeForDuplicateCheck candidate.text
  match lookupKeyPages keyToPages key with
  | none => false
  | some pages =>
    decide (3 ≤ pages.length) && decide (key.length < 220) && !(endsWithTerminalPunct key)

structure RepeatFilterResult where
  paragraphs : List ParagraphCandidate
  warnings : List String
deriving Repr, DecidableEq

/-- `removeGlobalRepeats` from src/lib/pdf.ts: drop candidates repeated on
three or more distinct pages (short, no terminal punctuation). -/
def removeGlobalRepeats (candidates : List ParagraphCandidate) : RepeatFilterResult :=
  let keyToPages := keyToPagesOf candidates
  let kept := candidates.filter (fun c => !(repeatedAcrossPages keyToPages c))
  let removedByRepeat := candidates.length - kept.length
  { paragraphs := kept
    warnings :=
      if removedByRepeat > 0 then
        ["Removed " ++ toString removedByRepeat ++
          " repeated short paragraphs likely to be template/header/footer text."]
      else [] }

/-- Parsed JSON values, the model of the `unknown` objects the LLM returns.
`num` carries a rational; JavaScript `NaN` (excluded by the sources'
`Number.isNaN` checks) has no counterpart here. -/
inductive Json where
  | null
  | bool (b : Bool)
  | num (q : ℚ)
  | str (s : String)
  | arr (elems : List Json)
  | obj (fields : List (String × Json))

/-- Property access `record.name` on a parsed value known not to be `null`
(or read through optional chaining, as in `formatBatchError`): `none` models
JavaScript `undefined` (absent field or non-object, non-null receiver;
primitives box and yield `undefined`).  The TypeError that a plain property
read of `null` throws in the source is modelled at its use sites
(`itemToKeep`, `itemToVisionParagraph`, `normalizeDecision`,
`normalizeVisionDecision`), not here. -/
def getField : Json → String → Option Json
  | .obj fields, name => fields.lookup name
  | _, _ => none

/-- JavaScript truthiness of a possibly-absent parsed value, as used by
`Boolean(record.possible_boilerplate)` and the `keep.note` test. -/
def jsTruthy : Option Json → Bool
  | none => false
  | some .null => false
  | some (.bool b) => b
  | some (.num q) => decide (q ≠ 0)
  | some (.str s) => decide (s ≠ "")
  | some (.arr _) => true
  | some (.obj _) => true

/-- `clampConfidence` from src/lib/extractor.ts: `undefined` unless the value
is a number, otherwise clamped into `[0, 1]`. -/
def clampConfidence : Option Json → Option ℚ
  | some (.num q) => some (max 0 (min 1 q))
  | _ => none

/-- A field that is kept only when it is a string, then trimmed
(`typeof x === "string" ? x.trim() : undefined`). -/
def trimmedStringField (item : Json) (name : String) : Option String :=
  match getField item name with
  | some (.str s) => some (jsTrim s)
  | _ => none

structure KeepDecision where
  id : String
  section_heading : Option String
  note : Option String
  possible_boilerplate : Bool
  confidence : Option ℚ
deriving Repr, DecidableEq

structure ChunkDecision where
  keep : List KeepDecision
  warnings : List String
deriving Repr, DecidableEq

/-- The `.map` callback inside `normalizeDecision`: a `null` element throws
a TypeError (`record.id` reads a property of null — the `as` cast has no
runtime effect); any other element is dropped (`none`) unless its `id` is a
string that does not trim to empty. -/
def itemToKeep : Json → Except String (Option KeepDecision)
  | .null => .error "TypeError: Cannot read properties of null"
  | item =>
    match getField item "id" with
    | some (.str s) =>
      if jsTrim s = "" then .ok none
      else
        .ok (some
          { id := s
            section_heading := trimmedStringField item "section_heading"
            note := trimmedStringField item "note"
            possible_boilerplate := jsTruthy (getField item "possible_boilerplate")
            confidence := clampConfidence (getField item "confidence") })
    | _ => .ok none

/-- `parsed.keep.map(callback)`: callbacks run left to right, and the first
thrown TypeError aborts the whole map. -/
def mapKeepItems : List Json → Except String (List (Option KeepDecision))
  | [] => .ok []
  | item :: rest =>
    match itemToKeep item with
    | .error e => .error e
    | .ok k =>
      match mapKeepItems rest with
      | .error e => .error e
      | .ok ks => .ok (k :: ks)

/-- Does the element survive `normalizeDecision`: its `id` is a string with
non-empty trim? -/
def hasValidKeepId (item : Json) : Bool :=
  match getField item "id" with
  | some (.str s) => decide (jsTrim s ≠ "")
  | _ => false

/-- Total form of the element mapping of `normalizeDecision`, meaningful on
elements satisfying `hasValidKeepId`. -/
def keepEntryOf (item : Json) : KeepDecision :=
  { id := match getField item "id" with | some (.str s) => s | _ => ""
    section_heading := trimmedStringField item "section_heading"
    note := trimmedStringField item "note"
    possible_boilerplate := jsTruthy (getField item "possible_boilerplate")
    confidence := clampConfidence (getField item "confidence") }

/-- The `warnings` normalization shared by both normalizers: keep an array's
string entries, trimmed, dropping entries that trim to empty (non-strings
become `""` and are dropped). -/
def normalizeWarningsOf (raw : Json) : List String :=
  match getField raw "warnings" with
  | some (.arr entries) =>
    (entries.map (fun entry => match entry with | .str s => jsTrim s | _ => "")).filter
      (fun s => s ≠ "")
  | _ => []

/-- `normalizeDecision` from src/lib/extractor.ts; thrown errors are
modelled as `Except.error`: the TypeError of `parsed.keep` on a null `raw`,
the `Error("Missing keep array...")` when `keep` is not an array, and the
TypeError a `null` element of `keep` throws out of the `.map` callback. -/
def normalizeDecision (raw : Json) : Except String ChunkDecision :=
  match raw with
  | .null => .error "TypeError: Cannot read properties of null"
  | _ =>
    match getField raw "keep" with
    | some (.arr items) =>
      match mapKeepItems items with
      | .error e => .error e
      | .ok mapped =>
        .ok { keep := mapped.filterMap id, warnings := normalizeWarningsOf raw }
    | _ => .error "Missing keep array in model JSON response."

structure VisionParagraphDecision where
  text : String
  section_heading : Option String
  note : Option String
  possible_boilerplate : Bool
  confidence : Option ℚ
deriving Repr, DecidableEq

structure VisionPageDecision where
  paragraphs : List VisionParagraphDecision
  warnings : List String
deriving Repr, DecidableEq

/-- The `.map` callback inside `normalizeVisionDecision`: a `null` element
throws a TypeError (`record.text` reads a property of null); any other
element is dropped (`none`) unless its `text` is a string whose trim is
non-empty; the kept text is the trimmed one. -/
def itemToVisionParagraph : Json → Except String (Option VisionParagraphDecision)
  | .null => .error "TypeError: Cannot read properties of null"
  | item =>
    match getField item "text" with
    | some (.str s) =>
      let text := jsTrim s
      if text = "" then .ok none
      else
        .ok (some
          { text := text
            section_heading := trimmedStringField item "section_heading"
            note := trimmedStringField item "note"
            possible_boilerplate := jsTruthy (getField item "possible_boilerplate")
            confidence := clampConfidence (getField item "confidence") })
    | _ => .ok none

/-- `parsed.paragraphs.map(callback)`: callbacks run left to right; the
first thrown TypeError aborts the whole map. -/
def mapVisionItems : List Json → Except String (List (Option VisionParagraphDecision))
  | [] => .ok []
  | item :: rest =>
    match itemToVisionParagraph item with
    | .error e => .error e
    | .ok p =>
      match mapVisionItems rest with
      | .error e => .error e
      | .ok ps => .ok (p :: ps)

/-- Does the element survive `normalizeVisionDecision`: its `text` is a
string with non-empty trim? -/
def hasValidVisionText (item : Json) : Bool :=
  match getField item "text" with
  | some (.str s) => decide (jsTrim s ≠ "")
  | _ => false

/-- Total form of the element mapping of `normalizeVisionDecision`. -/
def visionEntryOf (item : Json) : VisionParagraphDecision :=
  { text := match getField item "text" with | some (.str s) => jsTrim s | _ => ""
    section_heading := trimmedStringField item "section_heading"
    note := trimmedStringField item "note"
    possible_boilerplate := jsTruthy (getField item "possible_boilerplate")
    confidence := clampConfidence (getField item "confidence") }

/-- `normalizeVisionDecision` from src/lib/extractor.ts; thrown errors are
modelled as `Except.error` exactly as in `normalizeDecision`. -/
def normalizeVisionDecision (raw : Json) : Except String VisionPageDecision :=
  match raw with
  | .null => .error "TypeError: Cannot read properties of null"
  | _ =>
    match getField raw "paragraphs" with
    | some (.arr items) =>
      match mapVisionItems items with
      | .error e => .error e
      | .ok mapped =>
        .ok
          { paragraphs := mapped.filterMap id
            warnings := normalizeWarningsOf raw }
    | _ => .error "Missing paragraphs array in vision JSON response."

/-- Errors thrown by operations under `withRetries` (src/lib/retry.ts):
an `HttpError` with its status, the cancellation `AbortError`, or any other
thrown value. -/
inductive JsError where
  | http (status : ℕ)
  | abort
  | other (message : String)
deriving Repr, DecidableEq

/-- `isTransientError` from src/lib/retry.ts: cancellation is never
transient, HTTP 429 and ≥500 are, and so is any non-HTTP error. -/
def isTransientError : JsError → Bool
  | .abort => false
  | .http status => status == 429 || 500 ≤ status
  | .other _ => true

/-- The `while` loop of `withRetries`: `attempt` is the current attempt
index, `remaining` the number of attempts still allowed after this one
(`retries - attempt`); `op n` is the outcome of attempt `n`, `jitter n` the
random draw before the `n`-th backoff (`Math.floor(Math.random() * 220)`,
embedded as `jitter n % 220`).  Returns the final outcome and the list of
backoff sleep durations in order. -/
def retryLoop {α : Type} (baseDelayMs : ℕ) (op : ℕ → Except JsError α) (jitter : ℕ → ℕ)
    (aborted : Bool) : ℕ → ℕ → Except JsError α × List ℕ
  | attempt, remaining =>
    if aborted then (.error .abort, [])
    else
      match op attempt with
      | .ok value => (.ok value, [])
      | .error e =>
        match remaining with
        | 0 => (.error e, [])
        | r + 1 =>
          if isTransientError e then
            let delay := baseDelayMs * (attempt + 1) + jitter attempt % 220
            let rest := retryLoop baseDelayMs op jitter aborted (attempt + 1) r
            (rest.1, delay :: rest.2)
          else (.error e, [])

/-- `withRetries` from src/lib/retry.ts over a deterministic model of the
operation and of the jitter stream; the abort signal is modelled as a
constant flag (no cancellation arrives mid-run). -/
def withRetries {α : Type} (op : ℕ → Except JsError α) (retries : ℤ)
    (baseDelayMs : ℕ := 800) (jitter : ℕ → ℕ := fun _ => 0) (aborted : Bool := false) :
    Except JsError α × List ℕ :=
  retryLoop baseDelayMs op jitter aborted 0 (max 0 retries).toNat

structure ExtractionRow where
  pdf_name : String
  paragraph : String
  paragraph_index : ℕ
  page_number : Option ℕ
  section_heading : String
  notes : String
  confidence : Option ℚ
deriving Repr, DecidableEq

/-- The first pass of `dedupeRowsWithinPdf`: drop rows whose normalized
paragraph was already seen; rows with empty normalized paragraph always
stay. `seen` models the JavaScript `Set<string>`. -/
def dedupePass : List ExtractionRow → List String → List ExtractionRow
  | [], _ => []
  | row :: rest, seen =>
    let key := collapseWhitespace row.paragraph
    if key = "" then row :: dedupePass rest seen
    else if key ∈ seen then dedupePass rest seen
    else row :: dedupePass rest (key :: seen)

/-- `dedupeRowsWithinPdf` from src/lib/extractor.ts: deduplicate, then
reassign `paragraph_index` as the dense 1-based position. -/
def dedupeRowsWithinPdf (rows : List ExtractionRow) : List ExtractionRow :=
  (dedupePass rows []).mapIdx (fun index row => { row with paragraph_index := index + 1 })

/-- The notes string assembled for a kept text-mode paragraph: the LLM note
when truthy, then `"possible boilerplate"`, joined by `"; "`. -/
def keepNotes (note : Option String) (possible_boilerplate : Bool) : String :=
  let notes :=
    (match note with
     | some n => if n ≠ "" then [n] else []
     | none => []) ++
    (if possible_boilerplate then ["possible boilerplate"] else [])
  String.intercalate "; " notes

/-- `fallbackRowsFromChunk` from src/lib/extractor.ts: one row per candidate
of a chunk whose LLM filtering failed. -/
def fallbackRowsFromChunk (pdfName : String) (chunk : List ParagraphCandidate)
    (errorMessage : String) : List ExtractionRow :=
  chunk.map (fun paragraph =>
    { pdf_name := pdfName
      paragraph := paragraph.text
      paragraph_index := 0
      page_number := some paragraph.pageNumber
      section_heading := ""
      notes := "LLM filtering failed for this chunk; included paragraph as fallback. Error: "
        ++ errorMessage
      confidence := none })

/-- The `candidateMap.get` of the keep loop: `new Map(chunk.map ...)` keeps
the last entry for a duplicated id. -/
def candidateLookup (chunk : List ParagraphCandidate) (id : String) :
    Option ParagraphCandidate :=
  (chunk.filter (fun item => item.id = id)).getLast?

/-- The keep loop shared by the live text path and the batch text path:
ignore unknown and already-used ids, apply the quality gate, and build one
row per surviving keep decision. `used` models the `Set<string>`. -/
def keepLoop (pdfName : String) (quality : ExtractionQualitySettings)
    (chunk : List ParagraphCandidate) : List KeepDecision → List String → List ExtractionRow
  | [], _ => []
  | keep :: rest, used =>
    match candidateLookup chunk keep.id with
    | none => keepLoop pdfName quality chunk rest used
    | some candidate =>
      if keep.id ∈ used then keepLoop pdfName quality chunk rest used
      else if isLikelyCodingParagraph candidate.text quality = false then
        keepLoop pdfName quality chunk rest used
      else
        { pdf_name := pdfName
          paragraph := candidate.text
          paragraph_index := 0
          page_number := some candidate.pageNumber
          section_heading := keep.section_heading.getD ""
          notes := keepNotes keep.note keep.possible_boilerplate
          confidence := keep.confidence } ::
          keepLoop pdfName quality chunk rest (keep.id :: used)

/-- Rows produced from one normalized text-filter decision. -/
def rowsFromKeepDecisions (pdfName : String) (quality : ExtractionQualitySettings)
    (chunk : List ParagraphCandidate) (decision : ChunkDecision) : List ExtractionRow :=
  keepLoop pdfName quality chunk decision.keep []

/-- Rows produced from one normalized vision page decision (live and batch
paths): nothing when the decision has no paragraphs, otherwise one row per
paragraph surviving the quality gate. -/
def rowsFromVisionDecision (pdfName : String) (quality : ExtractionQualitySettings)
    (pageNumber : ℕ) (decision : VisionPageDecision) : List ExtractionRow :=
  if decision.paragraphs = [] then []
  else
    decision.paragraphs.filterMap (fun paragraph =>
      if isLikelyCodingParagraph paragraph.text quality then
        some
          { pdf_name := pdfName
            paragraph := paragraph.text
            paragraph_index := 0
            page_number := some pageNumber
            section_heading := paragraph.section_heading.getD ""
            notes := keepNotes paragraph.note paragraph.possible_boilerplate
            confidence := paragraph.confidence }
      else none)

/-- The placeholder row pushed when a page's vision extraction failed after
retries. -/
def visionFailureRow (pdfName : String) (pageNumber : ℕ) (message : String) : ExtractionRow :=
  { pdf_name := pdfName
    paragraph := ""
    paragraph_index := 0
    page_number := some pageNumber
    section_heading := ""
    notes := "Vision extraction failed on page " ++ toString pageNumber ++ ": " ++ message
    confidence := none }

/-- The placeholder row emitted when a whole document yields nothing. -/
def noParagraphsPlaceholder (pdfName : String) : ExtractionRow :=
  { pdf_name := pdfName
    paragraph := ""
    paragraph_index := 0
    page_number := none
    section_heading := ""
    notes := "No extractable paragraphs were found by text-layer parsing or vision OCR extraction."
    confidence := none }

/-- Outcome for one page inside the live vision fallback, after
`withRetries`: a normalized decision, or a failure message (cancellation,
which aborts the whole document, is outside this model). -/
inductive VisionPageOutcome where
  | success (decision : VisionPageDecision)
  | failure (message : String)
deriving Repr

/-- Rows the live vision fallback accumulates for one page. -/
def visionRowsForPage (pdfName : String) (quality : ExtractionQualitySettings)
    (pageNumber : ℕ) : VisionPageOutcome → List ExtractionRow
  | .success decision => rowsFromVisionDecision pdfName quality pageNumber decision
  | .failure message => [visionFailureRow pdfName pageNumber message]

/-- `processPdfWithVisionFallback` from src/lib/extractor.ts over the
per-page outcomes `(pageNumber, outcome)`: accumulate page rows in order,
emit the single placeholder when nothing was produced, then deduplicate. -/
def processPdfWithVisionFallback (pdfName : String) (quality : ExtractionQualitySettings)
    (pages : List (ℕ × VisionPageOutcome)) : List ExtractionRow :=
  let rows := pages.flatMap (fun page => visionRowsForPage pdfName quality page.1 page.2)
  let rows := if rows = [] then [noParagraphsPlaceholder pdfName] else rows
  dedupeRowsWithinPdf rows

structure TextFilterBatchTask where
  customId : String
  pdfName : String
  fileIndex : ℕ
  taskIndex : ℕ
  chunkIndex : ℕ
  totalChunks : ℕ
  chunk : List ParagraphCandidate
deriving Repr, DecidableEq

structure VisionPageBatchTask where
  customId : String
  pdfName : String
  fileIndex : ℕ
  taskIndex : ℕ
  pageNumber : ℕ
  totalPages : ℕ
deriving Repr, DecidableEq

inductive ExtractionBatchTask where
  | text_filter (t : TextFilterBatchTask)
  | vision_page (t : VisionPageBatchTask)
deriving Repr, DecidableEq

def ExtractionBatchTask.customId : ExtractionBatchTask → String
  | .text_filter t => t.customId
  | .vision_page t => t.customId

def ExtractionBatchTask.pdfName : ExtractionBatchTask → String
  | .text_filter t => t.pdfName
  | .vision_page t => t.pdfName

inductive BatchFileMode where
  | text
  | vision
deriving Repr, DecidableEq

structure ExtractionBatchFilePlan where
  pdfName : String
  fileIndex : ℕ
  mode : BatchFileMode
  totalPages : ℕ
deriving Repr, DecidableEq

structure OpenAiExtractionBatchManifest where
  model : String
  quality : ExtractionQualitySettings
  files : List ExtractionBatchFilePlan
  tasks : List ExtractionBatchTask

structure BatchResponsePayload where
  status_code : Option ℤ
  body : Option Json

structure BatchErrorPayload where
  code : Option String
  message : Option String

/-- One parsed line of a batch result stream (`BatchResultLine`); `none`
models both an absent field and JSON `null`. -/
structure BatchResultLine where
  custom_id : Option String
  response : Option BatchResponsePayload
  error : Option BatchErrorPayload

/-- The id a result line is indexed under: its `custom_id` when it is a
non-empty string (the filter building `outputMap`/`errorMap`). -/
def resultLineKey (line : BatchResultLine) : Option String :=
  match line.custom_id with
  | some s => if s = "" then none else some s
  | none => none

/-- `Map` lookup over the filtered result lines; a duplicated `custom_id`
keeps its last line (later `Map` entries overwrite earlier ones). -/
def lookupResult (lines : List BatchResultLine) (id : String) : Option BatchResultLine :=
  (lines.filter (fun line => resultLineKey line = some id)).getLast?

/-- `formatBatchError` from src/lib/extractor.ts. -/
def formatBatchError (line? : Option BatchResultLine) : String :=
  match line? with
  | none => "No batch result was returned for this request."
  | some line =>
    let errMessage :=
      match line.error with
      | some err => match err.message with | some m => jsTrim m | none => ""
      | none => ""
    if errMessage ≠ "" then errMessage
    else
      match line.response with
      | some resp =>
        match resp.status_code with
        | some status =>
          if 400 ≤ status then
            let bodyMessage :=
              match resp.body with
              | some body =>
                match getField body "error" with
                | some errObj =>
                  match getField errObj "message" with
                  | some (.str s) => s
                  | _ => ""
                | _ => ""
              | none => ""
            if bodyMessage ≠ "" then "HTTP " ++ toString status ++ ": " ++ bodyMessage
            else "HTTP " ++ toString status ++ " returned by batch result."
          else "Batch request did not return a usable response."
        | none => "Batch request did not return a usable response."
      | none => "Batch request did not return a usable response."

/-- The usability test of the reconciliation loop: the line (if any) must
carry a truthy body and a numeric status code below 400, otherwise the
descriptive failure message is raised; a usable body goes through the
response parser `parse` (the model of `parseOpenAiJsonResponse`, whose
string-level JSON extraction is kept abstract). -/
def usableBody (parse : Json → Except String Json) (line? : Option BatchResultLine) :
    Except String Json :=
  match line? with
  | some line =>
    match line.response with
    | some resp =>
      match resp.body, resp.status_code with
      | some body, some status =>
        if jsTruthy (some body) ∧ status < 400 then parse body
        else .error (formatBatchError line?)
      | _, _ => .error (formatBatchError line?)
    | none => .error (formatBatchError line?)
  | none => .error (formatBatchError line?)

/-- The rows the reconciliation `catch` produces for a failed task. -/
def taskFailureRows : ExtractionBatchTask → String → List ExtractionRow
  | .text_filter t, message => fallbackRowsFromChunk t.pdfName t.chunk message
  | .vision_page t, message => [visionFailureRow t.pdfName t.pageNumber message]

/-- The rows one manifest task contributes during
`importOpenAiBatchResultFiles`: find its result line (output stream first,
then error stream), require a usable body, parse and normalize it, and run
the shared keep/vision row construction; every failure on the way yields the
task's fallback rows instead. -/
def importTaskRows (parse : Json → Except String Json) (quality : ExtractionQualitySettings)
    (outLines errLines : List BatchResultLine) (task : ExtractionBatchTask) :
    List ExtractionRow :=
  let line? :=
    match lookupResult outLines task.customId with
    | some line => some line
    | none => lookupResult errLines task.customId
  match usableBody parse line? with
  | .error message => taskFailureRows task message
  | .ok rawObject =>
    match task with
    | .text_filter t =>
      match normalizeDecision rawObject with
      | .error message => taskFailureRows (.text_filter t) message
      | .ok decision => rowsFromKeepDecisions t.pdfName quality t.chunk decision
    | .vision_page t =>
      match normalizeVisionDecision rawObject with
      | .error message => taskFailureRows (.vision_page t) message
      | .ok decision => rowsFromVisionDecision t.pdfName quality t.pageNumber decision

/-- The per-document row list `rowsByPdf.get(pdfName)` after the
reconciliation loop: tasks are processed in manifest order and each pushes
its rows under its own `pdfName`. -/
def rowsForPdf (parse : Json → Except String Json) (quality : ExtractionQualitySettings)
    (outLines errLines : List BatchResultLine) (tasks : List ExtractionBatchTask)
    (pdfName : String) : List ExtractionRow :=
  (tasks.filter (fun task => task.pdfName = pdfName)).flatMap
    (importTaskRows parse quality outLines errLines)

/-- The final rows one file plan contributes: its document's accumulated
rows, the "nothing extracted" placeholder for an empty vision-mode document,
then per-document deduplication. -/
def importPlanRows (parse : Json → Except String Json) (quality : ExtractionQualitySettings)
    (outLines errLines : List BatchResultLine) (tasks : List ExtractionBatchTask)
    (plan : ExtractionBatchFilePlan) : List ExtractionRow :=
  let rows := rowsForPdf parse quality outLines errLines tasks plan.pdfName
  let rows :=
    if plan.mode = .vision ∧ rows = [] then [noParagraphsPlaceholder plan.pdfName] else rows
  dedupeRowsWithinPdf rows

/-- `importOpenAiBatchResultFiles` from src/lib/extractor.ts over parsed
result lines: reconcile every manifest task, then emit rows grouped by file
plan in ascending `fileIndex` order. -/
def importOpenAiBatchResultFiles (parse : Json → Except String Json)
    (manifest : OpenAiExtractionBatchManifest) (outLines errLines : List BatchResultLine) :
    List ExtractionRow :=
  let quality := sanitizeQualitySettings manifest.quality
  let sortedFiles := manifest.files.mergeSort (fun a b => a.fileIndex ≤ b.fileIndex)
  sortedFiles.flatMap (importPlanRows parse quality outLines errLines manifest.tasks)

/-- Fold of `appendLine` over a run of lines, starting from the empty
paragraph (how `linesToParagraphs` accumulates one paragraph). -/
def segFold (seg : List Line) : String :=
  seg.foldl (fun acc line => appendLine acc line.text) ""

/-- The paragraph text a run of lines yields: the fold, whitespace-normalized. -/
def segmentParagraph (seg : List Line) : String :=
  normalizeSpaces (segFold seg)

/-- Split a line list into maximal runs, starting a new run exactly where
the gap to the previous line exceeds the threshold. -/
def splitGo (threshold : ℚ) : Line → List Line → List Line → List (List Line)
  | _, seg, [] => [seg]
  | prev, seg, line :: rest =>
    if prev.y - line.y > threshold then seg :: splitGo threshold line [line] rest
    else splitGo threshold line (seg ++ [line]) rest

/-- All maximal runs of a line list under the gap threshold. -/
def splitAtBreaks (threshold : ℚ) (lines : List Line) : List (List Line) :=
  match lines with
  | [] => []
  | first :: rest => splitGo threshold first [first] rest

/-- Reference form of the paragraph-splitting step, structured as the claim
describes it once amended: threshold 1.65 times the median of the gaps
observed strictly between 0.5 and 40 units, a paragraph break exactly at
boundaries whose gap exceeds the threshold, paragraphs assembled by the
de-hyphenating `appendLine`, empty paragraphs dropped. -/
def linesToParagraphsRef (lines : List Line) : List String :=
  ((splitAtBreaks (median (observedGaps lines) * 1.65) lines).map segmentParagraph).filter
    (fun paragraph => paragraph ≠ "")

/-- Modelled from the claim's words, for refutation only: identical to
`linesToParagraphs` except that the median is taken over ALL vertical gaps
between consecutive lines, without the 0.5–40 unit observation band the
source applies. -/
def linesToParagraphsClaimMedian (lines : List Line) : List String :=
  match lines with
  | [] => []
  | first :: rest =>
    let baselineGap := median (consecutiveGaps lines)
    let gapThreshold := baselineGap * 1.65
    walkLines gapThreshold rest first first.text

end PDF2CSV

namespace PDF2CSV

/-! ## Chunker lemmas (claims C1, C10) -/

theorem chunkLoop_join (maxChars : ℕ) (ps : List ParagraphCandidate) :
    ∀ cur len, (chunkLoop maxChars ps cur len).flatten = cur ++ ps := by
  induction ps with
  | nil =>
    intro cur len
    simp only [chunkLoop]
    split
    · simp [*]
    · simp
  | cons p ps ih =>
    intro cur len
    simp only [chunkLoop]
    split
    · simp [List.flatten, ih]
    · simp [ih]

theorem chunkLoop_ne_nil (maxChars : ℕ) (ps : List ParagraphCandidate) :
    ∀ cur len, cur ≠ [] → ∀ c ∈ chunkLoop maxChars ps cur len, c ≠ [] := by
  induction ps with
  | nil =>
    intro cur len hcur c hc
    simp only [chunkLoop] at hc
    rw [if_neg hcur] at hc
    simp at hc
    subst hc
    exact hcur
  | cons p ps ih =>
    intro cur len hcur c hc
    simp only [chunkLoop] at hc
    split at hc
    · rcases List.mem_cons.mp hc with h | h
      · subst h; exact hcur
      · exact ih [p] (serializedLength p) (by simp) c h
    · exact ih (cur ++ [p]) (len + serializedLength p) (by simp) c hc

theorem chunkSize_singleton (p : ParagraphCandidate) :
    chunkSize [p] = serializedLength p := by
  simp [chunkSize]

theorem chunkSize_append_one (cur : List ParagraphCandidate) (p : ParagraphCandidate) :
    chunkSize (cur ++ [p]) = chunkSize cur + serializedLength p := by
  simp [chunkSize]

theorem chunkLoop_size (maxChars : ℕ) (ps : List ParagraphCandidate) :
    ∀ cur len, len = chunkSize cur → (2 ≤ cur.length → len ≤ maxChars) →
      ∀ c ∈ chunkLoop maxChars ps cur len, 2 ≤ c.length → chunkSize c ≤ maxChars := by
  induction ps with
  | nil =>
    intro cur len hlen hinv c hc hlen2
    simp only [chunkLoop] at hc
    split at hc
    · simp at hc
    · simp at hc
      subst hc
      exact hlen ▸ hinv hlen2
  | cons p ps ih =>
    intro cur len hlen hinv c hc hlen2
    simp only [chunkLoop] at hc
    split at hc
    · rcases List.mem_cons.mp hc with h | h
      · subst h; exact hlen ▸ hinv hlen2
      · exact ih [p] (serializedLength p) (chunkSize_singleton p).symm
          (by intro h; simp at h) c h hlen2
    · rename_i hcond
      refine ih (cur ++ [p]) (len + serializedLength p) ?_ ?_ c hc hlen2
      · rw [hlen, chunkSize_append_one]
      · intro hlen3
        rcases not_and_or.mp hcond with h | h
        · simp only [ne_eq, not_not] at h
          subst h
          simp at hlen3
        · omega

/-- C1: for every list of paragraph candidates, `chunkParagraphs` with the
default 7000 budget produces no chunks on empty input and only non-empty
chunks otherwise, never splits or drops a candidate (the concatenation of
the chunks in order is the input list), and is deterministic. -/
theorem chunkParagraphs_sound (ps : List ParagraphCandidate) :
    (ps = [] → chunkParagraphs ps = []) ∧
    (∀ c ∈ chunkParagraphs ps, c ≠ []) ∧
    (chunkParagraphs ps).flatten = ps ∧
    ∀ qs, ps = qs → chunkParagraphs ps = chunkParagraphs qs := by
  refine ⟨?_, ?_, ?_, ?_⟩
  · rintro rfl
    rfl
  · intro c hc
    match ps, hc with
    | p :: ps, hc =>
      unfold chunkParagraphs chunkLoop at hc
      rw [if_neg (by simp)] at hc
      exact chunkLoop_ne_nil 7000 ps ([] ++ [p]) (0 + serializedLength p) (by simp) c hc
  · exact chunkLoop_join 7000 ps [] 0
  · intro qs h
    rw [h]

/-- Witness for C1 at concrete inputs. -/
theorem chunkParagraphs_sound_witness :
    chunkParagraphs [] = [] ∧
    chunkParagraphs [⟨"p1-1", 1, "Hello"⟩] = chunkParagraphs [⟨"p1-1", 1, "Hello"⟩] :=
  ⟨(chunkParagraphs_sound []).1 rfl,
   (chunkParagraphs_sound [⟨"p1-1", 1, "Hello"⟩]).2.2.2 _ rfl⟩

/-- C10: every chunk produced by `chunkParagraphs` under the default 7000
budget that contains two or more paragraphs has total estimated serialized
size at most 7000; only a lone oversized paragraph can exceed the budget. -/
theorem chunkParagraphs_budget (ps : List ParagraphCandidate) :
    ∀ c ∈ chunkParagraphs ps, 2 ≤ c.length → chunkSize c ≤ 7000 := by
  intro c hc
  exact chunkLoop_size 7000 ps [] 0 rfl (by intro h; simp at h) c hc

/-- Witness for C10 at a concrete two-paragraph input. -/
theorem chunkParagraphs_budget_witness :
    chunkSize [⟨"p1-1", 1, "Hello"⟩, ⟨"p1-2", 1, "World"⟩] ≤ 7000 :=
  chunkParagraphs_budget [⟨"p1-1", 1, "Hello"⟩, ⟨"p1-2", 1, "World"⟩]
    [⟨"p1-1", 1, "Hello"⟩, ⟨"p1-2", 1, "World"⟩] (by decide) (by decide)

/-! ## Quality gate (claim C3) -/

theorem isLikelyCodingParagraph_true_iff (text : String) (q : ExtractionQualitySettings) :
    isLikelyCodingParagraph text q = true ↔
      (normalizeParagraph text ≠ "" ∧
       q.minWordsPerParagraph ≤ (jsWords (normalizeParagraph text)).length ∧
       q.minAlphaCharsPerParagraph ≤
         ((normalizeParagraph text).data.filter isAsciiAlpha).length ∧
       (q.requireSentenceTerminatorForShortParagraphs = true →
         hasSentenceTerminator (normalizeParagraph text) = true ∨
         q.shortParagraphWordThreshold ≤ (jsWords (normalizeParagraph text)).length)) := by
  unfold isLikelyCodingParagraph
  split_ifs <;> simp_all

/-- C3: raising `minWordsPerParagraph` or `minAlphaCharsPerParagraph` (all
other settings equal) can only remove previously-accepted texts, never
accept new ones: a text the gate rejects under the lower thresholds it also
rejects under the higher ones, and a text it accepts under the higher
thresholds it already accepted under the lower ones. -/
theorem quality_gate_monotone (text : String) (q1 q2 : ExtractionQualitySettings)
    (hw : q1.minWordsPerParagraph ≤ q2.minWordsPerParagraph)
    (ha : q1.minAlphaCharsPerParagraph ≤ q2.minAlphaCharsPerParagraph)
    (hs : q1.shortParagraphWordThreshold = q2.shortParagraphWordThreshold)
    (hr : q1.requireSentenceTerminatorForShortParagraphs
        = q2.requireSentenceTerminatorForShortParagraphs) :
    (isLikelyCodingParagraph text q1 = false → isLikelyCodingParagraph text q2 = false) ∧
    (isLikelyCodingParagraph text q2 = true → isLikelyCodingParagraph text q1 = true) := by
  have haccept : isLikelyCodingParagraph text q2 = true →
      isLikelyCodingParagraph text q1 = true := by
    intro h2
    rw [isLikelyCodingParagraph_true_iff] at h2
    rw [isLikelyCodingParagraph_true_iff]
    refine ⟨h2.1, le_trans hw h2.2.1, le_trans ha h2.2.2.1, ?_⟩
    intro hreq
    rw [hs]
    exact h2.2.2.2 (hr ▸ hreq)
  refine ⟨?_, haccept⟩
  intro h1
  cases h2 : isLikelyCodingParagraph text q2 with
  | false => rfl
  | true =>
    rw [haccept h2] at h1
    simp at h1

/-- Witness for C3: a two-word text rejected at threshold 6 stays rejected
at threshold 7. -/
theorem quality_gate_monotone_witness :
    isLikelyCodingParagraph "too short" ⟨7, 18, 12, true⟩ = false :=
  (quality_gate_monotone "too short" ⟨6, 18, 12, true⟩ ⟨7, 18, 12, true⟩
    (by decide) (by decide) rfl rfl).1 (by decide)

/-! ## Cross-page repeat filter (claim C7) -/

/-- C7: three candidates whose normalized text is identically
"Cookie Policy" on pages 1, 4 and 7 (short, no terminal punctuation) are all
removed by `removeGlobalRepeats`: the kept list is empty. -/
theorem removeGlobalRepeats_cookie_scenario :
    (removeGlobalRepeats
      [⟨"p1-1", 1, "Cookie Policy"⟩, ⟨"p4-1", 4, "Cookie Policy"⟩,
       ⟨"p7-1", 7, "Cookie Policy"⟩]).paragraphs = [] := by
  decide

/-! ## Row deduplication (claim C8) -/

theorem dedupePass_mem_key (rows : List ExtractionRow) :
    ∀ seen r, r ∈ dedupePass rows seen →
      collapseWhitespace r.paragraph = "" ∨ collapseWhitespace r.paragraph ∉ seen := by
  induction rows with
  | nil =>
    intro seen r h
    simp [dedupePass] at h
  | cons row rest ih =>
    intro seen r h
    simp only [dedupePass] at h
    split at h
    · rcases List.mem_cons.mp h with rfl | h'
      · left; assumption
      · exact ih seen r h'
    · split at h
      · exact ih seen r h
      · rcases List.mem_cons.mp h with rfl | h'
        · right; assumption
        · rcases ih _ r h' with hk | hk
          · left; exact hk
          · right
            intro hmem
            exact hk (List.mem_cons_of_mem _ hmem)

theorem dedupePass_pairwise (rows : List ExtractionRow) :
    ∀ seen, (dedupePass rows seen).Pairwise
      (fun a b => collapseWhitespace b.paragraph = "" ∨
        collapseWhitespace a.paragraph ≠ collapseWhitespace b.paragraph) := by
  induction rows with
  | nil =>
    intro seen
    simp [dedupePass]
  | cons row rest ih =>
    intro seen
    simp only [dedupePass]
    split
    next hrow =>
      refine List.Pairwise.cons ?_ (ih seen)
      intro b _
      by_cases hkb : collapseWhitespace b.paragraph = ""
      · left; exact hkb
      · right
        intro heq
        exact hkb (heq ▸ hrow)
    next =>
      split
      next => exact ih seen
      next =>
        refine List.Pairwise.cons ?_ (ih _)
        intro b hb
        rcases dedupePass_mem_key rest _ b hb with hk | hk
        · left; exact hk
        · right
          intro heq
          exact hk (by rw [← heq]; exact List.mem_cons_self _ _)

theorem dedupePass_eq_self (l : List ExtractionRow) :
    ∀ seen,
      l.Pairwise (fun a b => collapseWhitespace b.paragraph = "" ∨
        collapseWhitespace a.paragraph ≠ collapseWhitespace b.paragraph) →
      (∀ r ∈ l, collapseWhitespace r.paragraph = "" ∨ collapseWhitespace r.paragraph ∉ seen) →
      dedupePass l seen = l := by
  induction l with
  | nil =>
    intro seen _ _
    rfl
  | cons row rest ih =>
    intro seen hpw hseen
    rcases List.pairwise_cons.mp hpw with ⟨hhead, htail⟩
    by_cases hk0 : collapseWhitespace row.paragraph = ""
    · simp only [dedupePass, if_pos hk0]
      congr 1
      exact ih seen htail (fun r hr => hseen r (List.mem_cons_of_mem _ hr))
    · have hnot : collapseWhitespace row.paragraph ∉ seen :=
        (hseen row (List.mem_cons_self _ _)).resolve_left hk0
      simp only [dedupePass, if_neg hk0, if_neg hnot]
      congr 1
      refine ih _ htail ?_
      intro r hr
      by_cases hr0 : collapseWhitespace r.paragraph = ""
      · left; exact hr0
      · right
        intro hmem
        rcases List.mem_cons.mp hmem with heq | hmem'
        · exact (hhead r hr).elim (fun h => hr0 h) (fun h => h heq.symm)
        · exact ((hseen r (List.mem_cons_of_mem _ hr)).resolve_left hr0) hmem'

theorem mapIdx_preserves_keys (l : List ExtractionRow) :
    ∀ f : ℕ → ExtractionRow → ExtractionRow, (∀ i r, (f i r).paragraph = r.paragraph) →
      (l.mapIdx f).map (fun r => collapseWhitespace r.paragraph)
        = l.map (fun r => collapseWhitespace r.paragraph) := by
  induction l with
  | nil =>
    intro f _
    simp
  | cons a l ih =>
    intro f hf
    rw [List.mapIdx_cons]
    simp only [List.map_cons]
    rw [hf 0 a, ih (fun i => f (i + 1)) (fun i r => hf (i + 1) r)]

/-- C8: `dedupeRowsWithinPdf` is idempotent — a second pass removes nothing
and changes no `paragraph_index` — and after any pass `paragraph_index` is
the dense 1-based position of each surviving row. -/
theorem dedupeRowsWithinPdf_idempotent (rows : List ExtractionRow) :
    dedupeRowsWithinPdf (dedupeRowsWithinPdf rows) = dedupeRowsWithinPdf rows ∧
    ∀ i : Fin (dedupeRowsWithinPdf rows).length,
      ((dedupeRowsWithinPdf rows).get i).paragraph_index = i.val + 1 := by
  constructor
  · unfold dedupeRowsWithinPdf
    have hpres : ∀ (i : ℕ) (r : ExtractionRow),
        ((fun index row => { row with paragraph_index := index + 1 } :
          ℕ → ExtractionRow → ExtractionRow) i r).paragraph = r.paragraph :=
      fun _ _ => rfl
    have hkeys := mapIdx_preserves_keys (dedupePass rows [])
      (fun index row => { row with paragraph_index := index + 1 }) hpres
    have hpw0 := dedupePass_pairwise rows []
    have hpwmap : ((dedupePass rows []).map (fun r => collapseWhitespace r.paragraph)).Pairwise
        (fun a b => b = "" ∨ a ≠ b) := List.pairwise_map.mpr hpw0
    rw [← hkeys] at hpwmap
    have hpw0 := List.pairwise_map.mp hpwmap
    have heq := dedupePass_eq_self
      ((dedupePass rows []).mapIdx (fun index row => { row with paragraph_index := index + 1 }))
      [] hpw0 (by intro r _; right; simp)
    rw [heq, List.mapIdx_mapIdx]
    rfl
  · intro i
    rw [List.get_eq_getElem]
    simp only [dedupeRowsWithinPdf, List.getElem_mapIdx]

/-! ## Decision normalization (claim C2) -/

theorem getField_some_obj (raw : Json) (name : String) (j : Json)
    (h : getField raw name = some j) : ∃ fields, raw = Json.obj fields := by
  cases raw with
  | obj fields => exact ⟨fields, rfl⟩
  | null => simp [getField] at h
  | bool b => simp [getField] at h
  | num q => simp [getField] at h
  | str s => simp [getField] at h
  | arr elems => simp [getField] at h

theorem itemToKeep_eq (item : Json) (h : item ≠ Json.null) :
    itemToKeep item
      = Except.ok (if hasValidKeepId item then some (keepEntryOf item) else none) := by
  cases item with
  | null => exact absurd rfl h
  | bool b => simp [itemToKeep, hasValidKeepId, getField]
  | num q => simp [itemToKeep, hasValidKeepId, getField]
  | str s => simp [itemToKeep, hasValidKeepId, getField]
  | arr elems => simp [itemToKeep, hasValidKeepId, getField]
  | obj fields =>
    cases hf : getField (Json.obj fields) "id" with
    | none => simp [itemToKeep, hasValidKeepId, hf]
    | some j =>
      cases j with
      | str s =>
        by_cases hs : jsTrim s = ""
        · simp [itemToKeep, hasValidKeepId, hf, hs]
        · simp [itemToKeep, hasValidKeepId, keepEntryOf, hf, hs]
      | null => simp [itemToKeep, hasValidKeepId, hf]
      | bool b => simp [itemToKeep, hasValidKeepId, hf]
      | num q => simp [itemToKeep, hasValidKeepId, hf]
      | arr elems => simp [itemToKeep, hasValidKeepId, hf]
      | obj fields2 => simp [itemToKeep, hasValidKeepId, hf]

theorem itemToVisionParagraph_eq (item : Json) (h : item ≠ Json.null) :
    itemToVisionParagraph item
      = Except.ok (if hasValidVisionText item then some (visionEntryOf item) else none) := by
  cases item with
  | null => exact absurd rfl h
  | bool b => simp [itemToVisionParagraph, hasValidVisionText, getField]
  | num q => simp [itemToVisionParagraph, hasValidVisionText, getField]
  | str s => simp [itemToVisionParagraph, hasValidVisionText, getField]
  | arr elems => simp [itemToVisionParagraph, hasValidVisionText, getField]
  | obj fields =>
    cases hf : getField (Json.obj fields) "text" with
    | none => simp [itemToVisionParagraph, hasValidVisionText, hf]
    | some j =>
      cases j with
      | str s =>
        by_cases hs : jsTrim s = ""
        · simp [itemToVisionParagraph, hasValidVisionText, hf, hs]
        · simp [itemToVisionParagraph, hasValidVisionText, visionEntryOf, hf, hs]
      | null => simp [itemToVisionParagraph, hasValidVisionText, hf]
      | bool b => simp [itemToVisionParagraph, hasValidVisionText, hf]
      | num q => simp [itemToVisionParagraph, hasValidVisionText, hf]
      | arr elems => simp [itemToVisionParagraph, hasValidVisionText, hf]
      | obj fields2 => simp [itemToVisionParagraph, hasValidVisionText, hf]

theorem mapKeepItems_eq (items : List Json) (h : Json.null ∉ items) :
    mapKeepItems items
      = Except.ok (items.map (fun item =>
          if hasValidKeepId item then some (keepEntryOf item) else none)) := by
  induction items with
  | nil => rfl
  | cons item rest ih =>
    have hitem : item ≠ Json.null := by
      intro heq
      subst heq
      exact h (List.mem_cons_self _ _)
    have hrest : Json.null ∉ rest := fun hm => h (List.mem_cons_of_mem _ hm)
    simp only [mapKeepItems, itemToKeep_eq item hitem, ih hrest, List.map_cons]

theorem mapVisionItems_eq (items : List Json) (h : Json.null ∉ items) :
    mapVisionItems items
      = Except.ok (items.map (fun item =>
          if hasValidVisionText item then some (visionEntryOf item) else none)) := by
  induction items with
  | nil => rfl
  | cons item rest ih =>
    have hitem : item ≠ Json.null := by
      intro heq
      subst heq
      exact h (List.mem_cons_self _ _)
    have hrest : Json.null ∉ rest := fun hm => h (List.mem_cons_of_mem _ hm)
    simp only [mapVisionItems, itemToVisionParagraph_eq item hitem, ih hrest, List.map_cons]

theorem mapKeepItems_ok_no_null (items : List Json) :
    ∀ ks, mapKeepItems items = Except.ok ks → Json.null ∉ items := by
  induction items with
  | nil =>
    intro ks _
    exact List.not_mem_nil _
  | cons item rest ih =>
    intro ks h hm
    simp only [mapKeepItems] at h
    rcases List.mem_cons.mp hm with heq | hm2
    · subst heq
      simp [itemToKeep] at h
    · cases hi : itemToKeep item with
      | error e => rw [hi] at h; simp at h
      | ok k =>
        rw [hi] at h
        cases hr : mapKeepItems rest with
        | error e => rw [hr] at h; simp at h
        | ok ks2 => exact ih ks2 hr hm2

theorem mapVisionItems_ok_no_null (items : List Json) :
    ∀ ps, mapVisionItems items = Except.ok ps → Json.null ∉ items := by
  induction items with
  | nil =>
    intro ps _
    exact List.not_mem_nil _
  | cons item rest ih =>
    intro ps h hm
    simp only [mapVisionItems] at h
    rcases List.mem_cons.mp hm with heq | hm2
    · subst heq
      simp [itemToVisionParagraph] at h
    · cases hi : itemToVisionParagraph item with
      | error e => rw [hi] at h; simp at h
      | ok p =>
        rw [hi] at h
        cases hr : mapVisionItems rest with
        | error e => rw [hr] at h; simp at h
        | ok ps2 => exact ih ps2 hr hm2

theorem filterMap_id_map_keep (items : List Json) :
    ((items.map (fun item =>
        if hasValidKeepId item then some (keepEntryOf item) else none)).filterMap id)
      = (items.filter hasValidKeepId).map keepEntryOf := by
  induction items with
  | nil => rfl
  | cons item rest ih =>
    rw [List.map_cons, List.filterMap_cons, List.filter_cons]
    by_cases h : hasValidKeepId item
    · simp [h, ih]
    · simp [h, ih]

theorem filterMap_id_map_vision (items : List Json) :
    ((items.map (fun item =>
        if hasValidVisionText item then some (visionEntryOf item) else none)).filterMap id)
      = (items.filter hasValidVisionText).map visionEntryOf := by
  induction items with
  | nil => rfl
  | cons item rest ih =>
    rw [List.map_cons, List.filterMap_cons, List.filter_cons]
    by_cases h : hasValidVisionText item
    · simp [h, ih]
    · simp [h, ih]

/-- C2 counterexample, refuting the claim twice: the entry whose id is the
non-empty string `" "` is dropped by `normalizeDecision` (its trim is
empty), and a `keep` array containing a `null` element makes
`normalizeDecision` throw (a TypeError out of the `.map` callback) even
though `keep` is an array. -/
theorem normalizeDecision_counterexample :
    (normalizeDecision (Json.obj [("keep", Json.arr [Json.obj [("id", Json.str " ")]])])
        = Except.ok { keep := [], warnings := [] } ∧
      (" " : String) ≠ "") ∧
    normalizeDecision (Json.obj [("keep", Json.arr [Json.null])])
      = Except.error "TypeError: Cannot read properties of null" :=
  ⟨⟨rfl, by decide⟩, rfl⟩

/-- C2 (amended: a kept entry needs an id that is non-empty after trimming,
and a `null` element of the array is itself a thrown TypeError, not a
dropped entry): `normalizeDecision` fails exactly when the `keep` field is
not an array or the array contains a `null` element (an empty array
succeeds); on success the keep list is exactly the elements whose id is a
string with non-empty trim, in order, with `confidence` clamped into [0,1]
(dropped when non-numeric, e.g. 1.7 clamps to 1) and
`possible_boilerplate` coerced to a boolean; `normalizeVisionDecision`
behaves analogously over `paragraphs` keyed on non-empty trimmed text. -/
theorem normalizeDecision_amended :
    (∀ raw : Json, (∃ d, normalizeDecision raw = Except.ok d)
        ↔ ∃ items, getField raw "keep" = some (Json.arr items) ∧ Json.null ∉ items) ∧
    (∀ raw items, getField raw "keep" = some (Json.arr items) → Json.null ∉ items →
      normalizeDecision raw
        = Except.ok
            { keep := (items.filter hasValidKeepId).map keepEntryOf
              warnings := normalizeWarningsOf raw }) ∧
    (∀ item, (keepEntryOf item).confidence = clampConfidence (getField item "confidence") ∧
      (keepEntryOf item).possible_boilerplate
        = jsTruthy (getField item "possible_boilerplate")) ∧
    (∀ v q, clampConfidence v = some q → 0 ≤ q ∧ q ≤ 1) ∧
    (∀ v, (∀ q, v ≠ some (Json.num q)) → clampConfidence v = none) ∧
    (normalizeDecision
        (Json.obj [("keep",
          Json.arr [Json.obj [("id", Json.str "p1-1"), ("confidence", Json.num 1.7)]])])
      = Except.ok
          { keep := [{ id := "p1-1", section_heading := none, note := none,
                       possible_boilerplate := false, confidence := some 1 }]
            warnings := [] }) ∧
    (∀ raw : Json, (∃ d, normalizeVisionDecision raw = Except.ok d)
        ↔ ∃ items, getField raw "paragraphs" = some (Json.arr items) ∧ Json.null ∉ items) ∧
    (∀ raw items, getField raw "paragraphs" = some (Json.arr items) → Json.null ∉ items →
      normalizeVisionDecision raw
        = Except.ok
            { paragraphs := (items.filter hasValidVisionText).map visionEntryOf
              warnings := normalizeWarningsOf raw }) := by
  refine ⟨?_, ?_, ?_, ?_, ?_, ?_, ?_, ?_⟩
  · intro raw
    constructor
    · rintro ⟨d, hd⟩
      rcases h : getField raw "keep" with _ | j
      · cases raw with
        | null => simp [normalizeDecision] at hd
        | obj fields => simp [normalizeDecision, h] at hd
        | bool b => simp [normalizeDecision, getField] at hd
        | num q => simp [normalizeDecision, getField] at hd
        | str s => simp [normalizeDecision, getField] at hd
        | arr elems => simp [normalizeDecision, getField] at hd
      · cases j with
        | arr items =>
          refine ⟨items, rfl, ?_⟩
          obtain ⟨fields, rfl⟩ := getField_some_obj raw "keep" _ h
          simp only [normalizeDecision, h] at hd
          cases hm : mapKeepItems items with
          | error e => rw [hm] at hd; simp at hd
          | ok mapped => exact mapKeepItems_ok_no_null items mapped hm
        | null =>
          obtain ⟨fields, rfl⟩ := getField_some_obj raw "keep" _ h
          simp [normalizeDecision, h] at hd
        | bool b =>
          obtain ⟨fields, rfl⟩ := getField_some_obj raw "keep" _ h
          simp [normalizeDecision, h] at hd
        | num q =>
          obtain ⟨fields, rfl⟩ := getField_some_obj raw "keep" _ h
          simp [normalizeDecision, h] at hd
        | str s =>
          obtain ⟨fields, rfl⟩ := getField_some_obj raw "keep" _ h
          simp [normalizeDecision, h] at hd
        | obj fields2 =>
          obtain ⟨fields, rfl⟩ := getField_some_obj raw "keep" _ h
          simp [normalizeDecision, h] at hd
    · rintro ⟨items, h, hnull⟩
      obtain ⟨fields, rfl⟩ := getField_some_obj raw "keep" _ h
      have heq : normalizeDecision (Json.obj fields)
          = Except.ok
              { keep := (items.filter hasValidKeepId).map keepEntryOf
                warnings := normalizeWarningsOf (Json.obj fields) } := by
        simp only [normalizeDecision, h, mapKeepItems_eq items hnull, filterMap_id_map_keep]
      exact ⟨_, heq⟩
  · intro raw items h hnull
    obtain ⟨fields, rfl⟩ := getField_some_obj raw "keep" _ h
    simp only [normalizeDecision, h, mapKeepItems_eq items hnull, filterMap_id_map_keep]
  · intro item
    exact ⟨rfl, rfl⟩
  · intro v q h
    rcases v with _ | j
    · simp [clampConfidence] at h
    · cases j with
      | num x =>
        simp only [clampConfidence, Option.some.injEq] at h
        subst h
        refine ⟨le_max_left 0 _, max_le (by norm_num) (min_le_left 1 x)⟩
      | null => simp [clampConfidence] at h
      | bool b => simp [clampConfidence] at h
      | str s => simp [clampConfidence] at h
      | arr elems => simp [clampConfidence] at h
      | obj fields => simp [clampConfidence] at h
  · intro v hv
    rcases v with _ | j
    · rfl
    · cases j with
      | num x => exact absurd rfl (hv x)
      | null => rfl
      | bool b => rfl
      | str s => rfl
      | arr elems => rfl
      | obj fields => rfl
  · have hstep : normalizeDecision
        (Json.obj [("keep",
          Json.arr [Json.obj [("id", Json.str "p1-1"), ("confidence", Json.num 1.7)]])])
        = Except.ok
            { keep := [{ id := "p1-1", section_heading := none, note := none,
                         possible_boilerplate := false,
                         confidence := some (max 0 (min 1 (1.7 : ℚ))) }]
              warnings := [] } := rfl
    have hclamp : max 0 (min 1 (1.7 : ℚ)) = 1 := by norm_num
    rw [hstep, hclamp]
  · intro raw
    constructor
    · rintro ⟨d, hd⟩
      rcases h : getField raw "paragraphs" with _ | j
      · cases raw with
        | null => simp [normalizeVisionDecision] at hd
        | obj fields => simp [normalizeVisionDecision, h] at hd
        | bool b => simp [normalizeVisionDecision, getField] at hd
        | num q => simp [normalizeVisionDecision, getField] at hd
        | str s => simp [normalizeVisionDecision, getField] at hd
        | arr elems => simp [normalizeVisionDecision, getField] at hd
      · cases j with
        | arr items =>
          refine ⟨items, rfl, ?_⟩
          obtain ⟨fields, rfl⟩ := getField_some_obj raw "paragraphs" _ h
          simp only [normalizeVisionDecision, h] at hd
          cases hm : mapVisionItems items with
          | error e => rw [hm] at hd; simp at hd
          | ok mapped => exact mapVisionItems_ok_no_null items mapped hm
        | null =>
          obtain ⟨fields, rfl⟩ := getField_some_obj raw "paragraphs" _ h
          simp [normalizeVisionDecision, h] at hd
        | bool b =>
          obtain ⟨fields, rfl⟩ := getField_some_obj raw "paragraphs" _ h
          simp [normalizeVisionDecision, h] at hd
        | num q =>
          obtain ⟨fields, rfl⟩ := getField_some_obj raw "paragraphs" _ h
          simp [normalizeVisionDecision, h] at hd
        | str s =>
          obtain ⟨fields, rfl⟩ := getField_some_obj raw "paragraphs" _ h
          simp [normalizeVisionDecision, h] at hd
        | obj fields2 =>
          obtain ⟨fields, rfl⟩ := getField_some_obj raw "paragraphs" _ h
          simp [normalizeVisionDecision, h] at hd
    · rintro ⟨items, h, hnull⟩
      obtain ⟨fields, rfl⟩ := getField_some_obj raw "paragraphs" _ h
      have heq : normalizeVisionDecision (Json.obj fields)
          = Except.ok
              { paragraphs := (items.filter hasValidVisionText).map visionEntryOf
                warnings := normalizeWarningsOf (Json.obj fields) } := by
        simp only [normalizeVisionDecision, h, mapVisionItems_eq items hnull,
          filterMap_id_map_vision]
      exact ⟨_, heq⟩
  · intro raw items h hnull
    obtain ⟨fields, rfl⟩ := getField_some_obj raw "paragraphs" _ h
    simp only [normalizeVisionDecision, h, mapVisionItems_eq items hnull,
      filterMap_id_map_vision]

/-- Witness for C2 (amended) at a concrete decision object. -/
theorem normalizeDecision_amended_witness :
    normalizeDecision (Json.obj [("keep", Json.arr [])])
      = Except.ok
          { keep := (([] : List Json).filter hasValidKeepId).map keepEntryOf
            warnings := normalizeWarningsOf (Json.obj [("keep", Json.arr [])]) } :=
  normalizeDecision_amended.2.1 (Json.obj [("keep", Json.arr [])]) [] rfl
    (List.not_mem_nil _)

/-! ## Retry with backoff (claim C6) -/

/-- C6: an operation failing its first two attempts with HTTP 503 and
succeeding on the third, run under `withRetries` with `retries = 2`,
performs exactly two backoff sleeps of `baseDelayMs * (attempt + 1)` plus a
jitter below 220 ms each, and returns the success value. -/
theorem withRetries_two_503_then_success {α : Type} (v : α)
    (op : ℕ → Except JsError α) (baseDelayMs : ℕ) (jitter : ℕ → ℕ)
    (h0 : op 0 = Except.error (JsError.http 503))
    (h1 : op 1 = Except.error (JsError.http 503))
    (h2 : op 2 = Except.ok v) :
    withRetries op 2 baseDelayMs jitter false
      = (Except.ok v,
         [baseDelayMs * 1 + jitter 0 % 220, baseDelayMs * 2 + jitter 1 % 220]) ∧
    jitter 0 % 220 < 220 ∧ jitter 1 % 220 < 220 := by
  refine ⟨?_, Nat.mod_lt _ (by norm_num), Nat.mod_lt _ (by norm_num)⟩
  have hmax : ((max 0 (2 : ℤ)).toNat) = 2 := by decide
  unfold withRetries
  rw [hmax]
  rw [retryLoop, h0]
  simp only [Bool.false_eq_true, if_false, isTransientError]
  rw [retryLoop, h1]
  simp only [Bool.false_eq_true, if_false, isTransientError]
  rw [retryLoop, h2]
  simp only [Bool.false_eq_true, if_false]
  norm_num

/-- Witness for C6 at a concrete operation with `baseDelayMs = 10`. -/
theorem withRetries_two_503_then_success_witness :
    withRetries (fun n => if n < 2 then Except.error (JsError.http 503) else Except.ok 42)
        2 10 (fun _ => 0) false
      = (Except.ok 42, [10 * 1 + 0 % 220, 10 * 2 + 0 % 220]) ∧
    (0 : ℕ) % 220 < 220 ∧ (0 : ℕ) % 220 < 220 :=
  withRetries_two_503_then_success 42
    (fun n => if n < 2 then Except.error (JsError.http 503) else Except.ok 42)
    10 (fun _ => 0) rfl rfl rfl

/-! ## Batch reconciliation of missing results (claim C4) -/

/-- C4: a `text_filter` task whose `customId` matches no line in either
result stream contributes exactly its chunk's fallback rows (one per
candidate, with the no-result explanation) to its document's rows, and a
`vision_page` task in the same situation contributes its page placeholder
row; reconciliation never drops such a task. -/
theorem batch_missing_result_fallback
    (parse : Json → Except String Json) (quality : ExtractionQualitySettings)
    (outLines errLines : List BatchResultLine) (tasks : List ExtractionBatchTask)
    (t : TextFilterBatchTask) (v : VisionPageBatchTask)
    (hmem : ExtractionBatchTask.text_filter t ∈ tasks)
    (ho : lookupResult outLines t.customId = none)
    (he : lookupResult errLines t.customId = none)
    (hvo : lookupResult outLines v.customId = none)
    (hve : lookupResult errLines v.customId = none) :
    importTaskRows parse quality outLines errLines (ExtractionBatchTask.text_filter t)
        = fallbackRowsFromChunk t.pdfName t.chunk
            "No batch result was returned for this request." ∧
    (importTaskRows parse quality outLines errLines
        (ExtractionBatchTask.text_filter t)).length = t.chunk.length ∧
    (∃ pre post,
      rowsForPdf parse quality outLines errLines tasks t.pdfName
        = pre ++
          fallbackRowsFromChunk t.pdfName t.chunk
            "No batch result was returned for this request." ++ post) ∧
    importTaskRows parse quality outLines errLines (ExtractionBatchTask.vision_page v)
        = [visionFailureRow v.pdfName v.pageNumber
            "No batch result was returned for this request."] := by
  have htext : importTaskRows parse quality outLines errLines (.text_filter t)
      = fallbackRowsFromChunk t.pdfName t.chunk
          "No batch result was returned for this request." := by
    simp only [importTaskRows, ExtractionBatchTask.customId, ho, he, usableBody,
      formatBatchError, taskFailureRows]
  have hvis : importTaskRows parse quality outLines errLines (.vision_page v)
      = [visionFailureRow v.pdfName v.pageNumber
          "No batch result was returned for this request."] := by
    simp only [importTaskRows, ExtractionBatchTask.customId, hvo, hve, usableBody,
      formatBatchError, taskFailureRows]
  refine ⟨htext, ?_, ?_, hvis⟩
  · rw [htext]
    simp [fallbackRowsFromChunk]
  · have hmemf : ExtractionBatchTask.text_filter t
        ∈ tasks.filter (fun task => task.pdfName = t.pdfName) := by
      rw [List.mem_filter]
      exact ⟨hmem, by simp [ExtractionBatchTask.pdfName]⟩
    obtain ⟨s, u, hsu⟩ := List.append_of_mem hmemf
    refine ⟨s.flatMap (importTaskRows parse quality outLines errLines),
            u.flatMap (importTaskRows parse quality outLines errLines), ?_⟩
    simp only [rowsForPdf]
    rw [hsu, List.flatMap_append, List.flatMap_cons, htext, List.append_assoc]

/-- Witness for C4: a one-task manifest and empty result streams. -/
theorem batch_missing_result_fallback_witness :
    importTaskRows (fun j => Except.ok j) DEFAULT_QUALITY_SETTINGS [] []
        (ExtractionBatchTask.text_filter
          ⟨"f0-text_filter-0", "doc.pdf", 0, 0, 0, 1, [⟨"p1-1", 1, "Hello world."⟩]⟩)
      = fallbackRowsFromChunk "doc.pdf" [⟨"p1-1", 1, "Hello world."⟩]
          "No batch result was returned for this request." :=
  (batch_missing_result_fallback (fun j => Except.ok j) DEFAULT_QUALITY_SETTINGS [] []
    [ExtractionBatchTask.text_filter
      ⟨"f0-text_filter-0", "doc.pdf", 0, 0, 0, 1, [⟨"p1-1", 1, "Hello world."⟩]⟩]
    ⟨"f0-text_filter-0", "doc.pdf", 0, 0, 0, 1, [⟨"p1-1", 1, "Hello world."⟩]⟩
    ⟨"f0-vision_page-0", "scan.pdf", 1, 0, 1, 1⟩
    (List.mem_singleton.mpr rfl) rfl rfl rfl rfl).1

/-! ## Vision documents are never silently absent (claim C9) -/

theorem dedupePass_cons_ne_nil (row : ExtractionRow) (rest : List ExtractionRow) :
    dedupePass (row :: rest) [] ≠ [] := by
  simp only [dedupePass]
  split
  · simp
  · split
    next h => simp at h
    next => simp

theorem dedupeRowsWithinPdf_ne_nil (rows : List ExtractionRow) (h : rows ≠ []) :
    dedupeRowsWithinPdf rows ≠ [] := by
  cases rows with
  | nil => exact absurd rfl h
  | cons row rest =>
    unfold dedupeRowsWithinPdf
    simp only [ne_eq, List.mapIdx_eq_nil_iff]
    exact dedupePass_cons_ne_nil row rest

/-- C9: a document processed through the live vision fallback never returns
an empty row list — when no page produced a row, the result is exactly one
placeholder row with empty paragraph, null page number and an explanatory
note — and during batch import every vision-mode file plan likewise
contributes a non-empty row list. -/
theorem vision_document_never_empty
    (pdfName : String) (quality : ExtractionQualitySettings)
    (pages : List (ℕ × VisionPageOutcome))
    (parse : Json → Except String Json) (mq : ExtractionQualitySettings)
    (outLines errLines : List BatchResultLine) (tasks : List ExtractionBatchTask)
    (plan : ExtractionBatchFilePlan) :
    processPdfWithVisionFallback pdfName quality pages ≠ [] ∧
    (pages.flatMap (fun page => visionRowsForPage pdfName quality page.1 page.2) = [] →
      processPdfWithVisionFallback pdfName quality pages
        = [{ noParagraphsPlaceholder pdfName with paragraph_index := 1 }]) ∧
    (plan.mode = BatchFileMode.vision →
      importPlanRows parse mq outLines errLines tasks plan ≠ []) := by
  refine ⟨?_, ?_, ?_⟩
  · simp only [processPdfWithVisionFallback]
    by_cases h : pages.flatMap (fun page => visionRowsForPage pdfName quality page.1 page.2) = []
    · rw [if_pos h]
      exact dedupeRowsWithinPdf_ne_nil _ (by simp)
    · rw [if_neg h]
      exact dedupeRowsWithinPdf_ne_nil _ h
  · intro h
    simp only [processPdfWithVisionFallback]
    rw [if_pos h]
    rfl
  · intro hmode
    simp only [importPlanRows]
    by_cases h : rowsForPdf parse mq outLines errLines tasks plan.pdfName = []
    · rw [if_pos ⟨hmode, h⟩]
      exact dedupeRowsWithinPdf_ne_nil _ (by simp)
    · rw [if_neg (fun hc => h hc.2)]
      exact dedupeRowsWithinPdf_ne_nil _ h

/-- Witness for C9: a zero-page document and an empty vision-mode plan. -/
theorem vision_document_never_empty_witness :
    processPdfWithVisionFallback "a.pdf" DEFAULT_QUALITY_SETTINGS []
        = [{ noParagraphsPlaceholder "a.pdf" with paragraph_index := 1 }] ∧
    importPlanRows (fun j => Except.ok j) DEFAULT_QUALITY_SETTINGS [] [] []
        ⟨"a.pdf", 0, BatchFileMode.vision, 0⟩ ≠ [] :=
  ⟨(vision_document_never_empty "a.pdf" DEFAULT_QUALITY_SETTINGS []
      (fun j => Except.ok j) DEFAULT_QUALITY_SETTINGS [] [] []
      ⟨"a.pdf", 0, BatchFileMode.vision, 0⟩).2.1 rfl,
   (vision_document_never_empty "a.pdf" DEFAULT_QUALITY_SETTINGS []
      (fun j => Except.ok j) DEFAULT_QUALITY_SETTINGS [] [] []
      ⟨"a.pdf", 0, BatchFileMode.vision, 0⟩).2.2 rfl⟩

/-! ## Paragraph splitting (claim C5) -/

/-- C5 counterexample: on three lines with gaps of 50 units (outside the
0.5–40 observation band) the source's `linesToParagraphs` falls back to the
default median 12 (threshold 19.8) and breaks at every boundary, while the
claim's reading — median over all consecutive gaps — would give threshold
82.5 and no break at all. -/
theorem linesToParagraphs_gap_band_counterexample :
    linesToParagraphs [⟨100, "a"⟩, ⟨50, "b"⟩, ⟨0, "c"⟩] = ["a", "b", "c"] ∧
    linesToParagraphsClaimMedian [⟨100, "a"⟩, ⟨50, "b"⟩, ⟨0, "c"⟩] = ["a b c"] ∧
    linesToParagraphs [⟨100, "a"⟩, ⟨50, "b"⟩, ⟨0, "c"⟩]
      ≠ linesToParagraphsClaimMedian [⟨100, "a"⟩, ⟨50, "b"⟩, ⟨0, "c"⟩] := by
  have happ1 : appendLine "a" "b" = "a b" := rfl
  have happ2 : appendLine "a b" "c" = "a b c" := rfl
  have hns1 : normalizeSpaces "a" = "a" := rfl
  have hns2 : normalizeSpaces "b" = "b" := rfl
  have hns3 : normalizeSpaces "c" = "c" := rfl
  have hns4 : normalizeSpaces "a b c" = "a b c" := rfl
  have hsa : ¬(("a" : String) = "") := by decide
  have hsb : ¬(("b" : String) = "") := by decide
  have hsc : ¬(("c" : String) = "") := by decide
  have hsab : ¬(("a b" : String) = "") := by decide
  have hsabc : ¬(("a b c" : String) = "") := by decide
  have hne : ¬(([(100 : ℚ) - 50, (50 : ℚ) - 0] : List ℚ) = []) := by simp
  have hne' : ¬(([(50 : ℚ), 50] : List ℚ) = []) := by simp
  have hm : median [(100 : ℚ) - 50, (50 : ℚ) - 0] = 50 := by
    norm_num [median, hne, hne', sortAscending, insertAscending, List.getD]
  have hm' : median [(50 : ℚ), 50] = 50 := by
    norm_num [median, hne, hne', sortAscending, insertAscending, List.getD]
  have h1 : linesToParagraphs [⟨100, "a"⟩, ⟨50, "b"⟩, ⟨0, "c"⟩] = ["a", "b", "c"] := by
    norm_num [linesToParagraphs, observedGaps, consecutiveGaps, median, walkLines,
      hns1, hns2, hns3, hsa, hsb, hsc]
  have h2 : linesToParagraphsClaimMedian [⟨100, "a"⟩, ⟨50, "b"⟩, ⟨0, "c"⟩] = ["a b c"] := by
    norm_num [linesToParagraphsClaimMedian, consecutiveGaps, hm, hm', walkLines,
      happ1, happ2, hns1, hns4, hsa, hsb, hsc, hsab, hsabc]
  refine ⟨h1, h2, ?_⟩
  intro h
  rw [h1, h2] at h
  exact absurd h (by decide)

theorem appendLine_ne_empty (p l : String) (hl : l ≠ "") : appendLine p l ≠ "" := by
  unfold appendLine
  split_ifs with h1 h2
  · exact hl
  · intro hcontra
    apply hl
    have hdata : (String.mk p.data.dropLast ++ l).data = ([] : List Char) :=
      congrArg String.data hcontra
    rw [String.data_append] at hdata
    have : l.data = [] := (List.append_eq_nil.mp hdata).2
    cases l
    simp at this
    rw [this]
  · intro hcontra
    apply hl
    have hdata : (p ++ " " ++ l).data = ([] : List Char) := congrArg String.data hcontra
    rw [String.data_append] at hdata
    have : l.data = [] := (List.append_eq_nil.mp hdata).2
    cases l
    simp at this
    rw [this]

theorem segFold_concat (seg : List Line) (line : Line) :
    segFold (seg ++ [line]) = appendLine (segFold seg) line.text := by
  simp [segFold, List.foldl_append]

theorem walkLines_eq_splitGo (θ : ℚ) (rest : List Line) :
    ∀ (prev : Line) (seg : List Line) (current : String),
      (∀ l ∈ rest, l.text ≠ "") → current ≠ "" → segFold seg = current →
      walkLines θ rest prev current
        = ((splitGo θ prev seg rest).map segmentParagraph).filter (fun p => p ≠ "") := by
  induction rest with
  | nil =>
    intro prev seg current _ _ hfold
    simp only [walkLines, splitGo, List.map_cons, List.map_nil, List.filter_cons,
      List.filter_nil, segmentParagraph, hfold]
    by_cases h : normalizeSpaces current = ""
    · simp [h]
    · simp [h]
  | cons line rest ih =>
    intro prev seg current hne hcur hfold
    have hline : line.text ≠ "" := hne line (List.mem_cons_self _ _)
    have hne' : ∀ l ∈ rest, l.text ≠ "" := fun l hl => hne l (List.mem_cons_of_mem _ hl)
    simp only [walkLines, splitGo]
    rw [if_neg hcur]
    by_cases hgap : prev.y - line.y > θ
    · rw [if_pos hgap, if_pos hgap]
      rw [List.map_cons, List.filter_cons]
      have hrec := ih line [line] line.text hne' hline (by simp [segFold, appendLine])
      simp only [segmentParagraph, hfold]
      by_cases h : normalizeSpaces current = ""
      · simp [h, hrec]
      · simp [h, hrec]
    · rw [if_neg hgap, if_neg hgap]
      exact ih line (seg ++ [line]) (appendLine current line.text) hne'
        (appendLine_ne_empty current line.text hline)
        (by rw [segFold_concat, hfold])

/-- C5 (amended: the median is computed over the consecutive-line gaps
observed strictly between 0.5 and 40 units, with 12 as the default when no
such gap exists): for lines with non-empty text, `linesToParagraphs` starts
a new paragraph exactly at boundaries whose gap exceeds 1.65 times that
median, otherwise appending through the de-hyphenating `appendLine`, and
drops empty paragraphs — it equals the split-at-breaks reference. -/
theorem linesToParagraphs_amended (lines : List Line)
    (h : ∀ l ∈ lines, l.text ≠ "") :
    linesToParagraphs lines = linesToParagraphsRef lines := by
  cases lines with
  | nil => rfl
  | cons first rest =>
    have hfirst : first.text ≠ "" := h first (List.mem_cons_self _ _)
    have hrest : ∀ l ∈ rest, l.text ≠ "" := fun l hl => h l (List.mem_cons_of_mem _ hl)
    simp only [linesToParagraphs, linesToParagraphsRef, splitAtBreaks]
    exact walkLines_eq_splitGo _ rest first [first] first.text hrest hfirst
      (by simp [segFold, appendLine])

/-- Witness for C5 (amended) at the three-line input of the counterexample. -/
theorem linesToParagraphs_amended_witness :
    linesToParagraphs [⟨100, "a"⟩, ⟨50, "b"⟩, ⟨0, "c"⟩]
      = linesToParagraphsRef [⟨100, "a"⟩, ⟨50, "b"⟩, ⟨0, "c"⟩] :=
  linesToParagraphs_amended [⟨100, "a"⟩, ⟨50, "b"⟩, ⟨0, "c"⟩] (by
    intro l hl
    rcases List.mem_cons.mp hl with rfl | hl
    · decide
    rcases List.mem_cons.mp hl with rfl | hl
    · decide
    rcases List.mem_cons.mp hl with rfl | hl
    · decide
    · exact absurd hl (List.not_mem_nil l))

end PDF2CSV
